import Mathlib

/-!
Shallow embedding of the core consensus loop of `src/main.rs`
(blipovac/blockchain-workshop): a minimal p2p ledger demo where nodes
buffer signed transactions in a mempool, validate batches of 10, cast
votes, and finalize a block when every known peer has voted.

Modelling conventions:
- byte strings are `List Nat`, peer ids are `Nat`;
- the ed25519 primitives (key decoding, signing, verification) are
  abstract parameters collected in a `Crypto` structure — the embedding
  is parametric in them, exactly as the protocol logic is agnostic to
  the cryptography;
- Rust panics (`Vec::drain` underflow, `split_at` out of range,
  `Option::unwrap` on `None`) are `Except.error Panic.panic`;
- the gossipsub topic hash of a message is one of the two subscribed
  topics or some other topic;
- the `u32` block height is modelled as `Nat` (no execution considered
  here comes near 2^32 rounds);
- writing the block file `block_<height>.txt` is recorded in a ghost
  `blocks` field of the state.
-/

/-- Byte strings (`Vec<u8>` / `&[u8]`). -/
abbrev Bytes := List Nat

/-- Decoded ed25519 public keys (`ed25519::PublicKey`), kept opaque. -/
abbrev PubKey := List Nat

/-- Peer identifiers (`libp2p::PeerId`), kept opaque. -/
abbrev PeerId := Nat

/-- `struct Transaction { public_key, signature, data }` (main.rs:24-29). -/
structure Transaction where
  public_key : PubKey
  signature : Bytes
  data : Bytes
deriving DecidableEq, Repr

/-- A Rust panic (process abort). -/
inductive Panic where
  | panic
deriving DecidableEq, Repr

/-- The gossipsub topic hash carried by an inbound message: the node
subscribes to `"transaction"` and `"vote"` (main.rs:82-90); any other
topic compares unequal to both. -/
inductive TopicHash where
  | transactionTopic
  | voteTopic
  | other
deriving DecidableEq, Repr

/-- The abstract cryptographic and identity primitives the loop uses:
ed25519 key decoding, verification, local signing, and the local peer
identity. The protocol logic is parametric in these. -/
structure Crypto where
  decode : Bytes → Option PubKey
  verify : PubKey → Bytes → Bytes → Bool
  localPub : PubKey
  sign : Bytes → Bytes
  localPeerIdString : String
  localPeerId : PeerId

/-- The mutable protocol state owned by the event loop (main.rs:107-110),
plus a ghost `blocks` log of the block files written (main.rs:126-129). -/
structure NodeState where
  mempool : List Transaction
  block_height : Nat
  voters : Finset PeerId
  peers : Finset PeerId
  blocks : List (Nat × List Transaction)

instance : DecidableEq NodeState := fun x y =>
  decidable_of_iff
    (x.mempool = y.mempool ∧ x.block_height = y.block_height ∧ x.voters = y.voters
      ∧ x.peers = y.peers ∧ x.blocks = y.blocks)
    (by cases x; cases y; simp)

/-- Initial state: empty mempool, `block_height = 1` (main.rs:107-110),
no voters, no known peers, no block written yet. -/
def initState : NodeState :=
  { mempool := [], block_height := 1, voters := ∅, peers := ∅, blocks := [] }

/-- `mempool.push(tx)` — append at the tail (Rust `Vec::push`). -/
def Mempool.push (mp : List Transaction) (t : Transaction) : List Transaction :=
  mp ++ [t]

/-- `mempool.drain(..n).collect()` (main.rs:120-124): removes and returns
the first `n` elements; Rust's `Vec::drain(..n)` panics when `n` exceeds
the length. Returns `(drained, remaining)`. -/
def drainFront (mp : List Transaction) (n : Nat) :
    Except Panic (List Transaction × List Transaction) :=
  if n ≤ mp.length then Except.ok (mp.take n, mp.drop n) else Except.error Panic.panic

/-- One transaction's signature check
`transaction.public_key.verify(&transaction.data, &transaction.signature)`
(main.rs:162, main.rs:244). -/
def verifyTx (verify : PubKey → Bytes → Bytes → Bool) (t : Transaction) : Bool :=
  verify t.public_key t.data t.signature

/-- The counting loop `for transaction in mempool { if is_valid { correct += 1 } }`
(main.rs:159-167, main.rs:241-249). -/
def countValid (verify : PubKey → Bytes → Bytes → Bool) (l : List Transaction) : Nat :=
  l.foldl (fun acc t => if verifyTx verify t then acc + 1 else acc) 0

/-- Batch check of the stdin branch (main.rs:157-185): if the mempool
holds exactly 10 transactions, count the valid ones over the whole
buffer, build the vote message `format!("{block_height}{peer_id_string}")`,
and publish it iff all 10 are valid. Returns the published vote, if any. -/
def localBatchVote (verify : PubKey → Bytes → Bytes → Bool)
    (mempool : List Transaction) (block_height : Nat) (peer_id_string : String) :
    Option String :=
  if mempool.length = 10 then
    let correct_transaction_num := countValid verify mempool
    let vote_message := toString block_height ++ peer_id_string
    if correct_transaction_num = 10 then some vote_message else none
  else none

/-- Batch check of the inbound-network branch (main.rs:239-266), the
"oh no, duplicated code" block: same trigger, same counting loop, same
vote message, same publish condition, transcribed from its own source
lines. -/
def networkBatchVote (verify : PubKey → Bytes → Bytes → Bool)
    (mempool : List Transaction) (block_height : Nat) (peer_id_string : String) :
    Option String :=
  if mempool.length = 10 then
    let correct_transaction_num := countValid verify mempool
    let vote_message := toString block_height ++ peer_id_string
    if correct_transaction_num = 10 then some vote_message else none
  else none

/-- The round-controller check at the top of each loop iteration
(main.rs:114-135): when the voter set is as large as the known-peer set
and there is at least one known peer, drain the first 10 transactions
(no length guard in the source — `drain(..10)` panics if fewer are
present), write the block file, clear the voters, increment the height. -/
def roundControllerStep (s : NodeState) : Except Panic NodeState :=
  let number_of_peers := s.peers.card
  if s.voters.card = number_of_peers ∧ number_of_peers > 0 then
    match drainFront s.mempool 10 with
    | Except.error e => Except.error e
    | Except.ok (first_ten_trx, rest) =>
        Except.ok { s with
          mempool := rest
          blocks := s.blocks ++ [(s.block_height, first_ten_trx)]
          voters := ∅
          block_height := s.block_height + 1 }
  else
    Except.ok s

/-- Bytes of a line read from stdin. -/
def strBytes (s : String) : Bytes :=
  s.data.map Char.toNat

/-- An inbound gossipsub message as delivered to the event loop
(main.rs:202-206): the propagation source, the topic hash, the
message identifier bytes (`id.0`), and the message body. -/
structure InboundMessage where
  source : PeerId
  topic : TopicHash
  message_id : Bytes
  data : Bytes
deriving DecidableEq, Repr

/-- The events the `select!` loop can wake up on (main.rs:137-276):
a stdin line, mDNS peer discovery and expiry (each carrying a list of
peers), an inbound gossipsub message, and a new-listen-address
notification. -/
inductive Event where
  | stdinLine (line : String)
  | discovered (ps : List PeerId)
  | expired (ps : List PeerId)
  | message (m : InboundMessage)
  | newListenAddr
deriving DecidableEq

/-- The stdin branch (main.rs:138-188): sign the line with the local
key, push the transaction, publish it, and run the batch check on the
mempool observed right after the push. Returns the new state and the
vote published, if any. -/
def handleLine (c : Crypto) (line : String) (s : NodeState) :
    NodeState × Option String :=
  let tx : Transaction :=
    { public_key := c.localPub, data := strBytes line, signature := c.sign (strBytes line) }
  let mp := Mempool.push s.mempool tx
  let vote := localBatchVote c.verify mp s.block_height c.localPeerIdString
  ({ s with mempool := mp }, vote)

/-- The gossipsub-message branch (main.rs:202-270): split the message id
at byte 32 (`split_at(32)` panics when the id is shorter), decode the
first 32 bytes as a public key (`.unwrap()` panics when decoding fails);
on the vote topic, insert the source peer into the voter set iff the
signature over the body verifies; on the transaction topic, push the
reconstructed transaction and run the batch check. -/
def handleMessage (c : Crypto) (m : InboundMessage) (s : NodeState) :
    Except Panic (NodeState × Option String) :=
  if 32 ≤ m.message_id.length then
    let public_key_bytes := m.message_id.take 32
    let signature := m.message_id.drop 32
    match c.decode public_key_bytes with
    | none => Except.error Panic.panic
    | some public_key =>
      let s1 :=
        if m.topic = TopicHash.voteTopic then
          if c.verify public_key m.data signature then
            { s with voters := insert m.source s.voters }
          else s
        else s
      if m.topic = TopicHash.transactionTopic then
        let transaction : Transaction :=
          { public_key := public_key, signature := signature, data := m.data }
        let mp := Mempool.push s1.mempool transaction
        let vote := networkBatchVote c.verify mp s1.block_height c.localPeerIdString
        Except.ok ({ s1 with mempool := mp }, vote)
      else
        Except.ok (s1, none)
  else Except.error Panic.panic

/-- Dispatch of one ready event (main.rs:137-276): mDNS discovery adds
each listed peer to the gossipsub peer set, expiry removes each listed
peer, messages go through `handleMessage`, the listen-address
notification only prints. -/
def handleEvent (c : Crypto) (e : Event) (s : NodeState) :
    Except Panic (NodeState × Option String) :=
  match e with
  | Event.stdinLine line => Except.ok (handleLine c line s)
  | Event.discovered ps =>
      Except.ok ({ s with peers := ps.foldl (fun acc p => insert p acc) s.peers }, none)
  | Event.expired ps =>
      Except.ok ({ s with peers := ps.foldl (fun acc p => acc.erase p) s.peers }, none)
  | Event.message m => handleMessage c m s
  | Event.newListenAddr => Except.ok (s, none)

/-- One iteration of the main loop (main.rs:113-277): first the round
controller's quorum check, then processing of the one ready event. -/
def loopIter (c : Crypto) (e : Event) (s : NodeState) :
    Except Panic (NodeState × Option String) :=
  match roundControllerStep s with
  | Except.error err => Except.error err
  | Except.ok s1 => handleEvent c e s1

/-- Run the loop over a finite prefix of the event stream, stopping at
the first panic. -/
def runNode (c : Crypto) (evs : List Event) (s : NodeState) :
    Except Panic NodeState :=
  match evs with
  | [] => Except.ok s
  | e :: rest =>
    match loopIter c e s with
    | Except.error err => Except.error err
    | Except.ok (s1, _) => runNode c rest s1

/-- States reachable from the initial state along loop iterations whose
inbound messages come from currently known peers (gossipsub only
delivers messages from connected peers). -/
inductive Reachable (c : Crypto) : NodeState → Prop where
  | init : Reachable c initState
  | step (s : NodeState) (e : Event) (s1 : NodeState) (out : Option String)
      (hr : Reachable c s)
      (hsrc : ∀ m, e = Event.message m → m.source ∈ s.peers)
      (hstep : loopIter c e s = Except.ok (s1, out)) : Reachable c s1

/-- Reachability along iterations that additionally contain no mDNS
peer-expiry event. -/
inductive ReachableNoExpiry (c : Crypto) : NodeState → Prop where
  | init : ReachableNoExpiry c initState
  | step (s : NodeState) (e : Event) (s1 : NodeState) (out : Option String)
      (hr : ReachableNoExpiry c s)
      (hsrc : ∀ m, e = Event.message m → m.source ∈ s.peers)
      (hne : ∀ ps, e ≠ Event.expired ps)
      (hstep : loopIter c e s = Except.ok (s1, out)) : ReachableNoExpiry c s1

/-- A concrete instantiation of the cryptographic primitives, used to
evaluate the model on explicit inputs: every byte string decodes to a
key and every signature verifies. -/
def cAccept : Crypto :=
  { decode := fun _ => some []
    verify := fun _ _ _ => true
    localPub := []
    sign := fun _ => []
    localPeerIdString := "LOCAL"
    localPeerId := 0 }

/-- A crypto instantiation whose key decoding always fails, standing for
a message id whose first 32 bytes are not a valid ed25519 point. -/
def cRejectKey : Crypto :=
  { decode := fun _ => none
    verify := fun _ _ _ => true
    localPub := []
    sign := fun _ => []
    localPeerIdString := "LOCAL"
    localPeerId := 0 }

instance {ε α : Type} [DecidableEq ε] [DecidableEq α] : DecidableEq (Except ε α) := fun x y =>
  match x, y with
  | Except.ok a, Except.ok b => decidable_of_iff (a = b) (by simp)
  | Except.ok _, Except.error _ => isFalse (fun h => by cases h)
  | Except.error _, Except.ok _ => isFalse (fun h => by cases h)
  | Except.error a, Except.error b => decidable_of_iff (a = b) (by simp)

/-- Recognizer for mDNS discovery events, used to describe executions in
which no new peer is ever discovered. -/
def isDiscoveredEvent : Event → Bool
  | Event.discovered _ => true
  | _ => false

/-- A concrete transaction used to evaluate the model. -/
def mkTx (n : Nat) : Transaction :=
  { public_key := [n], signature := [n], data := [n] }

/-- A state in which the quorum condition holds (one known peer, one
voter) while the mempool holds fewer than 10 transactions. -/
def sQuorumShort : NodeState :=
  { mempool := [], block_height := 1, voters := {0}, peers := {0}, blocks := [] }

/-- An inbound transaction-topic message whose message identifier is
only 3 bytes long — shorter than the 32-byte public-key prefix. -/
def mShortId : InboundMessage :=
  { source := 5, topic := TopicHash.transactionTopic, message_id := [1, 2, 3], data := [7] }

/-- An inbound transaction-topic message with a 32-byte identifier,
paired below with a crypto instantiation whose key decoding fails. -/
def mBadKey : InboundMessage :=
  { source := 5, topic := TopicHash.transactionTopic
    message_id := List.replicate 32 1, data := [7] }

/-- A well-formed inbound vote message from peer 9. -/
def mVote : InboundMessage :=
  { source := 9, topic := TopicHash.voteTopic
    message_id := List.replicate 32 0, data := [] }

/-- A concrete event trace containing no peer-discovery event: a local
transaction, a received vote, and an mDNS expiry notification. -/
def evsNoPeers : List Event :=
  [Event.stdinLine "tx", Event.message mVote, Event.expired [3]]

lemma countValid_go (v : PubKey → Bytes → Bytes → Bool) (l : List Transaction) (a : Nat) :
    l.foldl (fun acc t => if verifyTx v t then acc + 1 else acc) a
      = a + l.countP (fun t => verifyTx v t) := by
  induction l generalizing a with
  | nil => simp
  | cons t ts ih =>
    simp only [List.foldl_cons, List.countP_cons, ih]
    by_cases h : verifyTx v t <;> simp [h]
    all_goals omega

lemma countValid_eq_countP (v : PubKey → Bytes → Bytes → Bool) (l : List Transaction) :
    countValid v l = l.countP (fun t => verifyTx v t) := by
  simp [countValid, countValid_go]

lemma countValid_eq_length_iff (v : PubKey → Bytes → Bytes → Bool) (l : List Transaction) :
    countValid v l = l.length ↔ ∀ t ∈ l, verifyTx v t = true := by
  rw [countValid_eq_countP]
  exact List.countP_eq_length

lemma foldl_push_eq (txs acc : List Transaction) :
    List.foldl Mempool.push acc txs = acc ++ txs := by
  induction txs generalizing acc with
  | nil => simp
  | cons t ts ih => simp [Mempool.push, ih]

lemma foldl_erase_empty (ps : List PeerId) :
    ps.foldl (fun acc p => acc.erase p) (∅ : Finset PeerId) = ∅ := by
  induction ps with
  | nil => rfl
  | cons p ps ih => simpa [Finset.erase_empty] using ih

lemma subset_foldl_insert (ps : List PeerId) (acc : Finset PeerId) :
    acc ⊆ ps.foldl (fun a p => insert p a) acc := by
  induction ps generalizing acc with
  | nil => exact Finset.Subset.refl acc
  | cons p ps ih =>
    exact Finset.Subset.trans (Finset.subset_insert p acc) (ih (insert p acc))

lemma roundControllerStep_not_cond (s : NodeState)
    (h : ¬(s.voters.card = s.peers.card ∧ s.peers.card > 0)) :
    roundControllerStep s = Except.ok s := by
  simp only [roundControllerStep]
  rw [if_neg h]

lemma roundControllerStep_finalizes (s : NodeState)
    (hc : s.voters.card = s.peers.card ∧ s.peers.card > 0)
    (hl : 10 ≤ s.mempool.length) :
    roundControllerStep s = Except.ok { s with
      mempool := s.mempool.drop 10
      blocks := s.blocks ++ [(s.block_height, s.mempool.take 10)]
      voters := ∅
      block_height := s.block_height + 1 } := by
  simp only [roundControllerStep, drainFront]
  rw [if_pos hc, if_pos hl]

lemma roundControllerStep_underflow (s : NodeState)
    (hc : s.voters.card = s.peers.card ∧ s.peers.card > 0)
    (hl : ¬ 10 ≤ s.mempool.length) :
    roundControllerStep s = Except.error Panic.panic := by
  simp only [roundControllerStep, drainFront]
  rw [if_pos hc, if_neg hl]

lemma roundControllerStep_ok (s s1 : NodeState) (h : roundControllerStep s = Except.ok s1) :
    s1.peers = s.peers ∧
      (s1 = s ∨
        (s1.block_height = s.block_height + 1 ∧ s1.voters = ∅ ∧ 10 ≤ s.mempool.length ∧
          s1.mempool = s.mempool.drop 10 ∧
          s1.blocks = s.blocks ++ [(s.block_height, s.mempool.take 10)])) := by
  by_cases hc : s.voters.card = s.peers.card ∧ s.peers.card > 0
  · by_cases hl : 10 ≤ s.mempool.length
    · rw [roundControllerStep_finalizes s hc hl] at h
      cases h
      exact ⟨rfl, Or.inr ⟨rfl, rfl, hl, rfl, rfl⟩⟩
    · rw [roundControllerStep_underflow s hc hl] at h
      cases h
  · rw [roundControllerStep_not_cond s hc] at h
    cases h
    exact ⟨rfl, Or.inl rfl⟩

lemma roundControllerStep_cond_ne (s : NodeState)
    (hc : s.voters.card = s.peers.card ∧ s.peers.card > 0) :
    roundControllerStep s ≠ Except.ok s := by
  by_cases hl : 10 ≤ s.mempool.length
  · rw [roundControllerStep_finalizes s hc hl]
    intro h
    injection h with h1
    have h2 := congrArg NodeState.block_height h1
    simp only at h2
    omega
  · rw [roundControllerStep_underflow s hc hl]
    intro h
    cases h

lemma handleMessage_short (c : Crypto) (m : InboundMessage) (s : NodeState)
    (h32 : ¬ 32 ≤ m.message_id.length) :
    handleMessage c m s = Except.error Panic.panic := by
  simp only [handleMessage]
  rw [if_neg h32]

lemma handleMessage_badKey (c : Crypto) (m : InboundMessage) (s : NodeState)
    (h32 : 32 ≤ m.message_id.length)
    (hdec : c.decode (m.message_id.take 32) = none) :
    handleMessage c m s = Except.error Panic.panic := by
  simp only [handleMessage]
  rw [if_pos h32, hdec]

lemma handleMessage_vote_insert (c : Crypto) (m : InboundMessage) (s : NodeState)
    (h32 : 32 ≤ m.message_id.length) (pk : PubKey)
    (hdec : c.decode (m.message_id.take 32) = some pk)
    (hvt : m.topic = TopicHash.voteTopic)
    (hv : c.verify pk m.data (m.message_id.drop 32) = true) :
    handleMessage c m s = Except.ok ({ s with voters := insert m.source s.voters }, none) := by
  simp only [handleMessage]
  rw [if_pos h32, hdec]
  simp [hvt, hv]

lemma handleMessage_vote_drop (c : Crypto) (m : InboundMessage) (s : NodeState)
    (h32 : 32 ≤ m.message_id.length) (pk : PubKey)
    (hdec : c.decode (m.message_id.take 32) = some pk)
    (hvt : m.topic = TopicHash.voteTopic)
    (hv : c.verify pk m.data (m.message_id.drop 32) = false) :
    handleMessage c m s = Except.ok (s, none) := by
  simp only [handleMessage]
  rw [if_pos h32, hdec]
  simp [hvt, hv]

lemma handleMessage_tx (c : Crypto) (m : InboundMessage) (s : NodeState)
    (h32 : 32 ≤ m.message_id.length) (pk : PubKey)
    (hdec : c.decode (m.message_id.take 32) = some pk)
    (htx : m.topic = TopicHash.transactionTopic) :
    handleMessage c m s = Except.ok
      ({ s with mempool := Mempool.push s.mempool ⟨pk, m.message_id.drop 32, m.data⟩ },
        networkBatchVote c.verify
          (Mempool.push s.mempool ⟨pk, m.message_id.drop 32, m.data⟩)
          s.block_height c.localPeerIdString) := by
  simp only [handleMessage]
  rw [if_pos h32, hdec]
  simp [htx]

lemma handleMessage_other (c : Crypto) (m : InboundMessage) (s : NodeState)
    (h32 : 32 ≤ m.message_id.length) (pk : PubKey)
    (hdec : c.decode (m.message_id.take 32) = some pk)
    (hot : m.topic = TopicHash.other) :
    handleMessage c m s = Except.ok (s, none) := by
  simp only [handleMessage]
  rw [if_pos h32, hdec]
  simp [hot]

lemma handleMessage_ok (c : Crypto) (m : InboundMessage) (s s1 : NodeState) (out : Option String)
    (h : handleMessage c m s = Except.ok (s1, out)) :
    s1.block_height = s.block_height ∧ s1.peers = s.peers ∧ s1.blocks = s.blocks ∧
      (s1.voters = s.voters ∨ s1.voters = insert m.source s.voters) ∧
      (m.topic = TopicHash.voteTopic → s1.mempool = s.mempool ∧ out = none) := by
  by_cases h32 : 32 ≤ m.message_id.length
  · cases hdec : c.decode (m.message_id.take 32) with
    | none =>
      rw [handleMessage_badKey c m s h32 hdec] at h
      cases h
    | some pk =>
      cases ht : m.topic with
      | transactionTopic =>
        rw [handleMessage_tx c m s h32 pk hdec ht] at h
        cases h
        refine ⟨rfl, rfl, rfl, Or.inl rfl, ?_⟩
        intro hvt
        cases hvt
      | voteTopic =>
        cases hv : c.verify pk m.data (m.message_id.drop 32) with
        | true =>
          rw [handleMessage_vote_insert c m s h32 pk hdec ht hv] at h
          cases h
          exact ⟨rfl, rfl, rfl, Or.inr rfl, fun _ => ⟨rfl, rfl⟩⟩
        | false =>
          rw [handleMessage_vote_drop c m s h32 pk hdec ht hv] at h
          cases h
          exact ⟨rfl, rfl, rfl, Or.inl rfl, fun _ => ⟨rfl, rfl⟩⟩
      | other =>
        rw [handleMessage_other c m s h32 pk hdec ht] at h
        cases h
        exact ⟨rfl, rfl, rfl, Or.inl rfl, fun _ => ⟨rfl, rfl⟩⟩
  · rw [handleMessage_short c m s h32] at h
    cases h

lemma handleEvent_ok (c : Crypto) (e : Event) (s s1 : NodeState) (out : Option String)
    (h : handleEvent c e s = Except.ok (s1, out)) :
    s1.block_height = s.block_height ∧ s1.blocks = s.blocks ∧
      (match e with
       | Event.discovered ps =>
           s1.peers = ps.foldl (fun acc p => insert p acc) s.peers ∧ s1.voters = s.voters
       | Event.expired ps =>
           s1.peers = ps.foldl (fun acc p => acc.erase p) s.peers ∧ s1.voters = s.voters
       | Event.message m =>
           s1.peers = s.peers ∧ (s1.voters = s.voters ∨ s1.voters = insert m.source s.voters)
       | _ => s1.peers = s.peers ∧ s1.voters = s.voters) := by
  cases e with
  | stdinLine line =>
    simp only [handleEvent, handleLine] at h
    cases h
    exact ⟨rfl, rfl, rfl, rfl⟩
  | discovered ps =>
    simp only [handleEvent] at h
    cases h
    exact ⟨rfl, rfl, rfl, rfl⟩
  | expired ps =>
    simp only [handleEvent] at h
    cases h
    exact ⟨rfl, rfl, rfl, rfl⟩
  | message m =>
    have hm := handleMessage_ok c m s s1 out (by simpa [handleEvent] using h)
    exact ⟨hm.1, hm.2.2.1, hm.2.1, hm.2.2.2.1⟩
  | newListenAddr =>
    simp only [handleEvent] at h
    cases h
    exact ⟨rfl, rfl, rfl, rfl⟩

lemma runNode_no_discovered (c : Crypto) (evs : List Event) :
    ∀ s s1 : NodeState, (∀ e ∈ evs, isDiscoveredEvent e = false) → s.peers = ∅ →
      runNode c evs s = Except.ok s1 →
      s1.peers = ∅ ∧ s1.block_height = s.block_height ∧ s1.blocks = s.blocks := by
  induction evs with
  | nil =>
    intro s s1 hnd hp hrun
    simp only [runNode] at hrun
    cases hrun
    exact ⟨hp, rfl, rfl⟩
  | cons e rest ih =>
    intro s s1 hnd hp hrun
    have hctrl : roundControllerStep s = Except.ok s :=
      roundControllerStep_not_cond s (by rw [hp]; simp)
    simp only [runNode, loopIter, hctrl] at hrun
    cases hh : handleEvent c e s with
    | error err =>
      rw [hh] at hrun
      cases hrun
    | ok p =>
      obtain ⟨s2, out⟩ := p
      rw [hh] at hrun
      have hinv := handleEvent_ok c e s s2 out hh
      have hp2 : s2.peers = ∅ := by
        cases e with
        | stdinLine line => rw [hinv.2.2.1, hp]
        | discovered ps =>
          have hfalse := hnd (Event.discovered ps) (List.mem_cons_self _ _)
          simp [isDiscoveredEvent] at hfalse
        | expired ps =>
          rw [hinv.2.2.1, hp]
          exact foldl_erase_empty ps
        | message m => rw [hinv.2.2.1, hp]
        | newListenAddr => rw [hinv.2.2.1, hp]
      have hrest := ih s2 s1 (fun e2 he2 => hnd e2 (List.mem_cons_of_mem _ he2)) hp2 hrun
      refine ⟨hrest.1, ?_, ?_⟩
      · rw [hrest.2.1, hinv.1]
      · rw [hrest.2.2, hinv.2.1]

/-- Claim C1: the claim states that when the quorum condition holds but
the mempool holds fewer than 10 transactions, the iteration skips
finalization without crashing, with a defensive length check before
every drain. The code has no such check: in the concrete state
`sQuorumShort` the quorum condition holds, the mempool is short, and the
round-controller step panics in `drain(..10)` instead of skipping. -/
theorem C1_quorum_short_mempool_panics :
    (sQuorumShort.voters.card = sQuorumShort.peers.card ∧ sQuorumShort.peers.card > 0
      ∧ sQuorumShort.mempool.length < 10)
    ∧ roundControllerStep sQuorumShort = Except.error Panic.panic :=
  ⟨by decide, by decide⟩

/-- Claim C2: the claim states that a message whose identifier is shorter
than 32 bytes, or whose key bytes do not decode, is dropped without a
crash. The code instead panics: `split_at(32)` on the 3-byte identifier
of `mShortId`, and `unwrap()` on the failed decode for `mBadKey`. -/
theorem C2_malformed_id_panics :
    (mShortId.message_id.length < 32
      ∧ handleMessage cAccept mShortId initState = Except.error Panic.panic)
    ∧ (cRejectKey.decode (mBadKey.message_id.take 32) = none
      ∧ handleMessage cRejectKey mBadKey initState = Except.error Panic.panic) :=
  ⟨⟨by decide, by decide⟩, ⟨rfl, by decide⟩⟩

/-- Claim C6: a mempool built by appending N transactions in order, when
its front k ≤ N elements are drained, yields exactly the first k
appended transactions in insertion order, and the remainder is the
original sequence minus its first k elements, in the original order. -/
theorem C6_drain_front_of_appends (txs : List Transaction) (k : Nat) (hk : k ≤ txs.length) :
    drainFront (List.foldl Mempool.push [] txs) k = Except.ok (txs.take k, txs.drop k) := by
  rw [foldl_push_eq txs [], List.nil_append]
  unfold drainFront
  rw [if_pos hk]

/-- Witness for C6 at a concrete 3-element mempool and k = 2. -/
theorem C6_witness :
    2 ≤ [mkTx 1, mkTx 2, mkTx 3].length
    ∧ drainFront (List.foldl Mempool.push [] [mkTx 1, mkTx 2, mkTx 3]) 2
        = Except.ok ([mkTx 1, mkTx 2], [mkTx 3]) :=
  ⟨by decide, C6_drain_front_of_appends [mkTx 1, mkTx 2, mkTx 3] 2 (by decide)⟩

/-- Claim C10: the duplicated batch-validation paths — the stdin branch
(main.rs:157-185) and the inbound-network branch (main.rs:239-266) —
are extensionally equal: same mempool snapshot and height give the same
vote decision and the same vote payload. -/
theorem C10_duplicated_paths_equal (verify : PubKey → Bytes → Bytes → Bool)
    (mempool : List Transaction) (block_height : Nat) (peer_id_string : String) :
    localBatchVote verify mempool block_height peer_id_string
      = networkBatchVote verify mempool block_height peer_id_string := rfl

/-- Claim C3: when batch validation triggers (snapshot length exactly
10), a vote is published iff every transaction in the snapshot passes
verification, the published payload is the height string concatenated
with the local peer-id string, and the network-branch check agrees. -/
theorem C3_vote_iff_all_valid (verify : PubKey → Bytes → Bytes → Bool)
    (mp : List Transaction) (height : Nat) (pid : String) (hlen : mp.length = 10) :
    ((localBatchVote verify mp height pid).isSome = true
      ↔ ∀ t ∈ mp, verifyTx verify t = true)
    ∧ (∀ v, localBatchVote verify mp height pid = some v → v = toString height ++ pid)
    ∧ networkBatchVote verify mp height pid = localBatchVote verify mp height pid := by
  have hiff : countValid verify mp = 10 ↔ ∀ t ∈ mp, verifyTx verify t = true := by
    rw [show (10 : Nat) = mp.length from hlen.symm]
    exact countValid_eq_length_iff verify mp
  refine ⟨?_, ?_, rfl⟩
  · simp only [localBatchVote]
    rw [if_pos hlen]
    by_cases hc : countValid verify mp = 10
    · rw [if_pos hc]
      simp only [Option.isSome_some]
      exact ⟨fun _ => hiff.1 hc, fun _ => trivial⟩
    · rw [if_neg hc]
      simp only [Option.isSome_none]
      constructor
      · intro hfalse
        exact absurd hfalse (by decide)
      · intro hall
        exact absurd (hiff.2 hall) hc
  · intro v hv
    simp only [localBatchVote] at hv
    rw [if_pos hlen] at hv
    by_cases hc : countValid verify mp = 10
    · rw [if_pos hc] at hv
      cases hv
      rfl
    · rw [if_neg hc] at hv
      cases hv

/-- Witness for C3 at a concrete 10-transaction snapshot in which every
signature verifies. -/
theorem C3_witness :
    (List.replicate 10 (mkTx 1)).length = 10
    ∧ (((localBatchVote cAccept.verify (List.replicate 10 (mkTx 1)) 1 "LOCAL").isSome = true
        ↔ ∀ t ∈ List.replicate 10 (mkTx 1), verifyTx cAccept.verify t = true)
      ∧ (∀ v, localBatchVote cAccept.verify (List.replicate 10 (mkTx 1)) 1 "LOCAL" = some v
          → v = toString 1 ++ "LOCAL")
      ∧ networkBatchVote cAccept.verify (List.replicate 10 (mkTx 1)) 1 "LOCAL"
          = localBatchVote cAccept.verify (List.replicate 10 (mkTx 1)) 1 "LOCAL") :=
  ⟨by decide, C3_vote_iff_all_valid cAccept.verify (List.replicate 10 (mkTx 1)) 1 "LOCAL" (by decide)⟩

/-- Claim C4: the Round Controller leaves the collecting phase (attempts
finalization) exactly when the voter-set size equals the known-peer
count and that count is positive; a completed controller step either
leaves the state unchanged or increments the height by exactly 1 and
empties the voter set; the height starts at 1; event handling never
changes the height (it is mutated only by finalization), so the height
is monotone across loop iterations. -/
theorem C4_round_controller (c : Crypto) (e : Event) (s : NodeState) :
    initState.block_height = 1
    ∧ (roundControllerStep s ≠ Except.ok s
        ↔ (s.voters.card = s.peers.card ∧ s.peers.card > 0))
    ∧ (∀ s1, roundControllerStep s = Except.ok s1 →
        s1 = s ∨ (s1.block_height = s.block_height + 1 ∧ s1.voters = ∅))
    ∧ (∀ s1 out, handleEvent c e s = Except.ok (s1, out) → s1.block_height = s.block_height)
    ∧ (∀ s1 out, loopIter c e s = Except.ok (s1, out) → s.block_height ≤ s1.block_height) := by
  refine ⟨rfl, ⟨?_, ?_⟩, ?_, ?_, ?_⟩
  · intro hne
    by_contra hc
    exact hne (roundControllerStep_not_cond s hc)
  · intro hc
    exact roundControllerStep_cond_ne s hc
  · intro s1 h
    rcases (roundControllerStep_ok s s1 h).2 with h1 | h1
    · exact Or.inl h1
    · exact Or.inr ⟨h1.1, h1.2.1⟩
  · intro s1 out h
    exact (handleEvent_ok c e s s1 out h).1
  · intro s1 out h
    cases hc : roundControllerStep s with
    | error err =>
      simp only [loopIter, hc] at h
      cases h
    | ok s2 =>
      simp only [loopIter, hc] at h
      have h1 := (handleEvent_ok c e s2 s1 out h).1
      rcases (roundControllerStep_ok s s2 hc).2 with h2 | h2
      · rw [h2] at h1
        exact le_of_eq h1.symm
      · rw [h2.1] at h1
        omega

/-- Claim C5: in any execution from the initial state in which no peer
is ever discovered (the known-peer count stays 0), finalization never
triggers no matter how many votes are recorded: the height stays 1, no
block is ever written, and since every written block records a drain,
the mempool is never drained. -/
theorem C5_no_peers_no_finalization (c : Crypto) (evs : List Event) (s1 : NodeState)
    (hnd : ∀ e ∈ evs, isDiscoveredEvent e = false)
    (hrun : runNode c evs initState = Except.ok s1) :
    s1.peers = ∅ ∧ s1.block_height = 1 ∧ s1.blocks = [] := by
  have h := runNode_no_discovered c evs initState s1 hnd rfl hrun
  exact ⟨h.1, h.2.1, h.2.2⟩

/-- Witness for C5 on a concrete discovery-free trace that records a
vote (from peer 9) before an expiry event. -/
theorem C5_witness :
    (∀ e ∈ evsNoPeers, isDiscoveredEvent e = false)
    ∧ ((⟨[⟨[], [], [116, 120]⟩], 1, {9}, ∅, []⟩ : NodeState).peers = ∅
      ∧ (⟨[⟨[], [], [116, 120]⟩], 1, {9}, ∅, []⟩ : NodeState).block_height = 1
      ∧ (⟨[⟨[], [], [116, 120]⟩], 1, {9}, ∅, []⟩ : NodeState).blocks = []) :=
  ⟨by decide, C5_no_peers_no_finalization cAccept evsNoPeers
    ⟨[⟨[], [], [116, 120]⟩], 1, {9}, ∅, []⟩ (by decide) (by decide)⟩

/-- Claim C7: a received vote message (well-formed identifier, decodable
key) inserts the source peer into the voter set exactly when the
signature verifies against the claimed key; when verification fails the
vote is dropped and the whole state — the voter set included — is
unchanged. -/
theorem C7_vote_recorded_iff_verified (c : Crypto) (m : InboundMessage) (s : NodeState)
    (hvt : m.topic = TopicHash.voteTopic)
    (h32 : 32 ≤ m.message_id.length)
    (pk : PubKey) (hdec : c.decode (m.message_id.take 32) = some pk) :
    (c.verify pk m.data (m.message_id.drop 32) = true →
      handleMessage c m s = Except.ok ({ s with voters := insert m.source s.voters }, none))
    ∧ (c.verify pk m.data (m.message_id.drop 32) = false →
      handleMessage c m s = Except.ok (s, none)) :=
  ⟨fun hv => handleMessage_vote_insert c m s h32 pk hdec hvt hv,
   fun hv => handleMessage_vote_drop c m s h32 pk hdec hvt hv⟩

/-- Witness for C7 on the concrete vote message `mVote` with a crypto
instantiation under which the signature verifies. -/
theorem C7_witness :
    (mVote.topic = TopicHash.voteTopic ∧ 32 ≤ mVote.message_id.length
      ∧ cAccept.decode (mVote.message_id.take 32) = some []
      ∧ cAccept.verify [] mVote.data (mVote.message_id.drop 32) = true)
    ∧ handleMessage cAccept mVote initState
        = Except.ok ({ initState with voters := insert mVote.source initState.voters }, none) :=
  ⟨⟨rfl, by decide, rfl, rfl⟩,
   (C7_vote_recorded_iff_verified cAccept mVote initState rfl (by decide) [] rfl).1 rfl⟩

/-- Claim C9: handling a message on the vote topic mutates at most the
voter set — the mempool, the block height, the known-peer set and the
block log are unchanged, and no vote is published from this branch. -/
theorem C9_vote_message_frame (c : Crypto) (m : InboundMessage) (s : NodeState)
    (hvt : m.topic = TopicHash.voteTopic) :
    ∀ s1 out, handleMessage c m s = Except.ok (s1, out) →
      s1.mempool = s.mempool ∧ s1.block_height = s.block_height ∧ s1.peers = s.peers
        ∧ s1.blocks = s.blocks ∧ out = none := by
  intro s1 out h
  have hm := handleMessage_ok c m s s1 out h
  exact ⟨(hm.2.2.2.2 hvt).1, hm.1, hm.2.1, hm.2.2.1, (hm.2.2.2.2 hvt).2⟩

/-- Witness for C9 on the concrete vote message `mVote`, whose handling
only inserts peer 9 into the voter set. -/
theorem C9_witness :
    (mVote.topic = TopicHash.voteTopic
      ∧ handleMessage cAccept mVote initState = Except.ok (⟨[], 1, {9}, ∅, []⟩, none))
    ∧ ((⟨[], 1, {9}, ∅, []⟩ : NodeState).mempool = initState.mempool
      ∧ (⟨[], 1, {9}, ∅, []⟩ : NodeState).block_height = initState.block_height
      ∧ (⟨[], 1, {9}, ∅, []⟩ : NodeState).peers = initState.peers
      ∧ (⟨[], 1, {9}, ∅, []⟩ : NodeState).blocks = initState.blocks
      ∧ (none : Option String) = none) :=
  ⟨⟨rfl, by decide⟩,
   C9_vote_message_frame cAccept mVote initState rfl ⟨[], 1, {9}, ∅, []⟩ none (by decide)⟩

/-- Claim C8 counterexample: the invariant "the voter set never holds
more entries than the known-peer count" is not preserved by peer
expiry. Concretely reachable: discover peers 7 and 8, record a valid
vote from 7, then let both expire — the voter set still holds peer 7
while the known-peer set is empty, so the voter-set size exceeds the
peer count. -/
theorem C8_expiry_violates_invariant :
    Reachable cAccept ⟨[], 1, {7}, ∅, []⟩
    ∧ ¬ ((⟨[], 1, {7}, ∅, []⟩ : NodeState).voters.card
          ≤ (⟨[], 1, {7}, ∅, []⟩ : NodeState).peers.card) := by
  constructor
  · have h1 : Reachable cAccept ⟨[], 1, ∅, {7, 8}, []⟩ :=
      Reachable.step initState (Event.discovered [7, 8]) ⟨[], 1, ∅, {7, 8}, []⟩ none
        Reachable.init (by intro m hm; simp at hm) (by decide)
    have h2 : Reachable cAccept ⟨[], 1, {7}, {7, 8}, []⟩ :=
      Reachable.step ⟨[], 1, ∅, {7, 8}, []⟩
        (Event.message ⟨7, TopicHash.voteTopic, List.replicate 32 0, []⟩)
        ⟨[], 1, {7}, {7, 8}, []⟩ none
        h1 (by intro m hm; cases hm; decide) (by decide)
    exact Reachable.step ⟨[], 1, {7}, {7, 8}, []⟩ (Event.expired [7, 8])
      ⟨[], 1, {7}, ∅, []⟩ none h2 (by intro m hm; simp at hm) (by decide)
  · decide

/-- Claim C8 amended: along executions that contain no peer-expiry
event (and whose messages come from known peers), every reachable state
satisfies the invariant — the voter set is contained in the known-peer
set, so its size never exceeds the known-peer count. Vote insertion and
finalization preserve it; peer expiry is the sole violating operation,
because it removes the peer from the known-peer set but not from the
voter set. -/
theorem C8_no_expiry_invariant (c : Crypto) (s : NodeState) (h : ReachableNoExpiry c s) :
    s.voters ⊆ s.peers ∧ s.voters.card ≤ s.peers.card := by
  have hsub : s.voters ⊆ s.peers := by
    induction h with
    | init => exact Finset.Subset.refl ∅
    | step s e s1 out hr hsrc hne hstep ih =>
      cases hc : roundControllerStep s with
      | error err =>
        simp only [loopIter, hc] at hstep
        cases hstep
      | ok s2 =>
        simp only [loopIter, hc] at hstep
        have hctrl := roundControllerStep_ok s s2 hc
        have hsub2 : s2.voters ⊆ s2.peers := by
          rcases hctrl.2 with he | hfin
          · rw [he]
            exact ih
          · rw [hfin.2.1]
            exact Finset.empty_subset _
        have hinv := handleEvent_ok c e s2 s1 out hstep
        cases e with
        | stdinLine line =>
          rw [hinv.2.2.1, hinv.2.2.2, hctrl.1]
          exact hsub2.trans (by rw [hctrl.1])
        | discovered ps =>
          rw [hinv.2.2.2, hinv.2.2.1]
          exact hsub2.trans (subset_foldl_insert ps s2.peers)
        | expired ps => exact absurd rfl (hne ps)
        | message m =>
          rw [hinv.2.2.1]
          rcases hinv.2.2.2 with hv | hv
          · rw [hv]
            exact hsub2
          · rw [hv]
            rw [Finset.insert_subset_iff]
            refine ⟨?_, hsub2⟩
            rw [hctrl.1]
            exact hsrc m rfl
        | newListenAddr =>
          rw [hinv.2.2.1, hinv.2.2.2]
          exact hsub2
  exact ⟨hsub, Finset.card_le_card hsub⟩

/-- Witness for the amended C8 at a concrete expiry-free two-step
execution: discover peers 7 and 8, then record a valid vote from 7. -/
theorem C8_witness :
    (⟨[], 1, {7}, {7, 8}, []⟩ : NodeState).voters ⊆ (⟨[], 1, {7}, {7, 8}, []⟩ : NodeState).peers
    ∧ (⟨[], 1, {7}, {7, 8}, []⟩ : NodeState).voters.card
        ≤ (⟨[], 1, {7}, {7, 8}, []⟩ : NodeState).peers.card :=
  C8_no_expiry_invariant cAccept ⟨[], 1, {7}, {7, 8}, []⟩
    (ReachableNoExpiry.step ⟨[], 1, ∅, {7, 8}, []⟩
      (Event.message ⟨7, TopicHash.voteTopic, List.replicate 32 0, []⟩)
      ⟨[], 1, {7}, {7, 8}, []⟩ none
      (ReachableNoExpiry.step initState (Event.discovered [7, 8]) ⟨[], 1, ∅, {7, 8}, []⟩ none
        ReachableNoExpiry.init (by intro m hm; simp at hm) (by intro ps; simp) (by decide))
      (by intro m hm; cases hm; decide) (by intro ps; simp) (by decide))
